import Mathlib

/-!
Verification of the Battle.net runner fragment of the lutris repository.

The Python sources are shallowly embedded:

* `lutris/util/bnet.py` — the binary product-database scanner
  (`regex_product_db`, `products_parse`, `read_config`);
* `lutris/runners/winebattlenet.py` — prefix resolution/creation
  (`get_default_prefix`, `get_or_create_default_prefix`), `prelaunch`'s
  shutdown escalation, `play`, `is_installed`, `get_bnet_games`;
* `lutris/runners/runner.py` — the generic `Runner.is_installed`.

Python `bytes` are lists of naturals (each < 256 in well-formed inputs);
Python exceptions are an `Except PyErr` result; Python `str` values are
represented by their UTF-8 byte sequences (UTF-8 decoding is injective, so
this representation is faithful); Python `dict` insertion order and
overwrite-in-place semantics are modelled by `pyInsert` on association
lists.  External collaborators that are not part of this repository's
sources (the filesystem, `wine`-layer helpers, `shlex`, `winepath`) are
passed in as explicit parameters.
-/

/-- Python `bytes` buffers: lists of byte values. -/
abbrev Bytes := List Nat

/-- The Python exceptions the embedded fragment can raise. -/
inductive PyErr where
  | indexError
  | unicodeDecodeError
  | keyError
  | typeError
  deriving DecidableEq, Repr

/-- Python `buf[i]` on a `bytes` object: the byte, or an `IndexError` when
`i` is out of range. -/
def byteAt (buf : Bytes) (i : Nat) : Except PyErr Nat :=
  match buf[i]? with
  | some b => Except.ok b
  | none => Except.error PyErr.indexError

/-- Python `buf[i:j]` slicing for `0 ≤ i ≤ j`: total, silently truncated at
the end of the buffer. -/
def pySlice (buf : Bytes) (i j : Nat) : Bytes := (buf.take j).drop i

/-- A UTF-8 continuation byte (`0x80–0xBF`). -/
def utf8Cont (b : Nat) : Bool := 128 ≤ b && b < 192

/-- Strict UTF-8 validity (RFC 3629: no overlongs, no surrogates, max
U+10FFFF), the criterion under which Python `bytes.decode()` succeeds. -/
def utf8Valid : Bytes → Bool
  | [] => true
  | b :: r =>
    if b < 128 then utf8Valid r
    else if 194 ≤ b && b ≤ 223 then
      match r with
      | c1 :: r1 => utf8Cont c1 && utf8Valid r1
      | [] => false
    else if b = 224 then
      match r with
      | c1 :: c2 :: r2 => (160 ≤ c1 && c1 < 192) && utf8Cont c2 && utf8Valid r2
      | _ => false
    else if (225 ≤ b && b ≤ 236) || b = 238 || b = 239 then
      match r with
      | c1 :: c2 :: r2 => utf8Cont c1 && utf8Cont c2 && utf8Valid r2
      | _ => false
    else if b = 237 then
      match r with
      | c1 :: c2 :: r2 => (128 ≤ c1 && c1 < 160) && utf8Cont c2 && utf8Valid r2
      | _ => false
    else if b = 240 then
      match r with
      | c1 :: c2 :: c3 :: r3 =>
          (144 ≤ c1 && c1 < 192) && utf8Cont c2 && utf8Cont c3 && utf8Valid r3
      | _ => false
    else if 241 ≤ b && b ≤ 243 then
      match r with
      | c1 :: c2 :: c3 :: r3 =>
          utf8Cont c1 && utf8Cont c2 && utf8Cont c3 && utf8Valid r3
      | _ => false
    else if b = 244 then
      match r with
      | c1 :: c2 :: c3 :: r3 =>
          (128 ≤ c1 && c1 < 144) && utf8Cont c2 && utf8Cont c3 && utf8Valid r3
      | _ => false
    else false

/-- Python `bytes.decode()`: succeeds exactly on valid UTF-8, raising
`UnicodeDecodeError` otherwise.  The decoded `str` is represented by its
UTF-8 byte sequence (decoding is injective, so this is faithful). -/
def pyDecode (bs : Bytes) : Except PyErr Bytes :=
  if utf8Valid bs then Except.ok bs else Except.error PyErr.unicodeDecodeError

/-- `regex_product_db = re.compile(b'\x0A..\x0A')` matching at position `i`:
a literal `0x0A`, two bytes that are not `0x0A` (`.` does not match newline
in a non-DOTALL pattern), then a literal `0x0A`; all four in bounds. -/
def anchorAt (buf : Bytes) (i : Nat) : Bool :=
  (match buf[i]? with | some b => b = 10 | none => false) &&
  (match buf[i+1]? with | some b => b ≠ 10 | none => false) &&
  (match buf[i+2]? with | some b => b ≠ 10 | none => false) &&
  (match buf[i+3]? with | some b => b = 10 | none => false)

/-- Leftmost anchor match at a position `≥ pos`, searched with explicit
fuel (the scan advances one byte per step, as the regex engine does). -/
def findFromAux : Nat → Bytes → Nat → Option Nat
  | 0, _, _ => none
  | fuel + 1, buf, pos =>
    if buf.length ≤ pos then none
    else if anchorAt buf pos then some pos
    else findFromAux fuel buf (pos + 1)

/-- Leftmost anchor match at a position `≥ pos` (fuel `buf.length + 1` is
always sufficient: the scan stops at the end of the buffer). -/
def findFrom (buf : Bytes) (pos : Nat) : Option Nat :=
  findFromAux (buf.length + 1) buf pos

/-- The match positions produced by `finditer`: repeatedly take the
leftmost match at or after the scan position, then resume scanning at the
end of the 4-byte match (non-overlapping in the regex sense only). -/
def findMatchesAux : Nat → Bytes → Nat → List Nat
  | 0, _, _ => []
  | fuel + 1, buf, pos =>
    match findFrom buf pos with
    | none => []
    | some i => i :: findMatchesAux fuel buf (i + 4)

/-- `regex_product_db.finditer(buf)`: the list of match start offsets.
Each match consumes 4 bytes, so `buf.length + 1` units of fuel always
suffice. -/
def regex_finditer (buf : Bytes) : List Nat :=
  findMatchesAux (buf.length + 1) buf 0

/-- One parsed product record: `{'gameid': name, 'path': path, 'code': code}`. -/
structure ProdRec where
  gameid : Bytes
  path : Bytes
  code : Bytes
  deriving DecidableEq, Repr

/-- The products mapping: a Python dict keyed by gameid, as an insertion-
ordered association list with unique keys. -/
abbrev BnetDict := List (Bytes × ProdRec)

/-- Python dict lookup `d[k]` (as an `Option`). -/
def dictLookup (d : BnetDict) (k : Bytes) : Option ProdRec :=
  match d with
  | [] => none
  | (k', v) :: rest => if k' = k then some v else dictLookup rest k

/-- Python dict assignment `d[k] = v`: overwrite in place if the key is
present, else append at the end. -/
def pyInsert (d : BnetDict) (k : Bytes) (v : ProdRec) : BnetDict :=
  match d with
  | [] => [(k, v)]
  | (k', v') :: rest => if k' = k then (k, v) :: rest else (k', v') :: pyInsert rest k v

/-- The body of the `products_parse` loop for the match starting at
`start`: the exact offset arithmetic of `lutris/util/bnet.py` lines 15-29. -/
def parseRecord (buf : Bytes) (start : Nat) : Except PyErr ProdRec := do
  let offset := start + 4
  let length ← byteAt buf offset
  let offset := offset + 1
  let name ← pyDecode (pySlice buf offset (offset + length))
  let offset := offset + length
  let offset := offset + 1
  let length ← byteAt buf offset
  let offset := offset + 1
  let code ← pyDecode (pySlice buf offset (offset + length))
  let offset := offset + length
  let offset := offset + 3
  let length ← byteAt buf offset
  let offset := offset + 1
  let path ← pyDecode (pySlice buf offset (offset + length))
  pure { gameid := name, path := path, code := code }

/-- One iteration of the `products_parse` loop: parse the record at match
position `s` and store it under its gameid (`products[name] = {...}`). -/
def parseStep (buf : Bytes) (products : BnetDict) (s : Nat) : Except PyErr BnetDict := do
  let r ← parseRecord buf s
  pure (pyInsert products r.gameid r)

/-- `products_parse` from `lutris/util/bnet.py`: scan the whole buffer for
anchor matches and fold the record parser over them.  An exception raised
while parsing any record propagates (no partial mapping is returned). -/
def products_parse (buf : Bytes) : Except PyErr BnetDict :=
  (regex_finditer buf).foldlM (parseStep buf) []

/-- A Lean string literal as its UTF-8 byte sequence (all uses are ASCII,
where codepoints and bytes coincide). -/
def strBytes (s : String) : Bytes := s.data.map Char.toNat

/-- The root anchor key `'battle.net'` that `read_config` probes. -/
def bnetKey : Bytes := strBytes "battle.net"

/-- `read_config` from `lutris/util/bnet.py`.  The filesystem is a map
from paths to file contents (`none` = absent, which covers both the
`os.path.exists` check and the read).  A missing file returns `None`; a
parsed mapping lacking the `'battle.net'` key is logged and `None` is
returned (the `except KeyError` branch); parse exceptions propagate. -/
def read_config (fs : String → Option Bytes) (product_db_path : String) :
    Except PyErr (Option BnetDict) :=
  match fs product_db_path with
  | none => Except.ok none
  | some buf => do
    let config ← products_parse buf
    match dictLookup config bnetKey with
    | none => pure none
    | some _ => pure (some config)

/-! ## winebattlenet.py / runner.py models -/

/-- `winebattlenet.default_arch`. -/
def default_arch : String := "win32"

/-- Python's `arch or default` / `if not arch: arch = self.default_arch`
normalisation: `None` and the empty string are falsy. -/
def archOrDefault (arch : Option String) : String :=
  match arch with
  | none => default_arch
  | some s => if s = "" then default_arch else s

/-- `winebattlenet.get_default_prefix`: pure path construction.
`settings.RUNNER_DIR` is an external constant, passed as `runner_dir`;
`os.path.join` on relative components is rendered as `/`-concatenation. -/
def get_default_prefix (runner_dir : String) (arch : Option String) : String :=
  let a := archOrDefault arch
  let path := if a = "win64" then "prefix64" else "prefix"
  runner_dir ++ "/winebattlenet/" ++ path

/-- Filesystem-creation side effects observed by the provisioning model. -/
inductive FsEvent where
  | makedirs (path : String)
  | createPrefixRun (dir : String) (arch : String)
  deriving DecidableEq, Repr

/-- `os.path.dirname` for the slash-joined paths this model builds. -/
def dirname (p : String) : String :=
  String.intercalate "/" (p.splitOn "/").dropLast

/-- Modelled from the spec: `wine.create_prefix` (the external
environment-creation tool of §4.2, not under src/) — an opaque subprocess
that creates the environment directory for the given architecture. -/
def wine_create_prefix (fs : List String) (prefix_dir : String) (arch : String) :
    List String × List FsEvent :=
  (prefix_dir :: fs, [FsEvent.createPrefixRun prefix_dir arch])

/-- `winebattlenet.create_prefix`: `makedirs` the parent directory if
absent, then invoke the external `create_prefix` tool.  The filesystem is
the list of existing paths; the event list records every creation side
effect. -/
def wbn_create_prefix (fs : List String) (prefix_dir : String) (arch : Option String) :
    List String × List FsEvent :=
  let a := archOrDefault arch
  let dn := dirname prefix_dir
  let (fs1, ev1) := if dn ∈ fs then (fs, ([] : List FsEvent))
                    else (dn :: fs, [FsEvent.makedirs dn])
  let (fs2, ev2) := wine_create_prefix fs1 prefix_dir a
  (fs2, ev1 ++ ev2)

/-- `winebattlenet.get_or_create_default_prefix`: resolve the default
prefix path and create it only when it does not already exist.  Returns
the path, the filesystem afterwards, and the creation side effects. -/
def get_or_create_default_prefix (runner_dir : String) (fs : List String)
    (arch : Option String) : String × List String × List FsEvent :=
  let a := archOrDefault arch
  let p := get_default_prefix runner_dir (some a)
  if p ∈ fs then (p, fs, [])
  else
    let (fs', ev) := wbn_create_prefix fs p (some a)
    (p, fs', ev)

/-- The product database path probed by `winebattlenet.get_bnet_games`
(under the win32 default prefix). -/
def product_db_path (runner_dir : String) : String :=
  get_default_prefix runner_dir none ++ "/drive_c/ProgramData/Battle.net/Agent/product.db"

/-- `winebattlenet.get_bnet_games`: return `None` when the product
database file does not exist, else delegate to `read_config`.  The
filesystem maps paths to file contents. -/
def get_bnet_games (runner_dir : String) (fs : String → Option Bytes) :
    Except PyErr (Option BnetDict) :=
  match fs (product_db_path runner_dir) with
  | none => Except.ok none
  | some _ => read_config fs (product_db_path runner_dir)

/-- The module-level `gamelist` dict of `winebattlenet.py` (only the
uncommented entries): gameid ↦ (display name, executable, short code). -/
def gamelist : List (String × String × String × String) :=
  [("prometheus", "Overwatch", "Overwatch.exe", "Pro"),
   ("prometheus_test", "Overwatch (PTR)", "Overwatch.exe", "Pro")]

/-- `gamelist[gameid]` lookup. -/
def gamelistLookup (gameid : String) : Option (String × String × String) :=
  (gamelist.find? (fun e => e.1 = gameid)).map (·.2)

/-- The value `winebattlenet.play` returns: either the structured error
dict `{'error': ..., 'file': ...}` or a launch-info dict. -/
inductive PlayOutcome where
  | errorDict (error : String) (file : String)
  | launchInfo (env : List (String × String)) (command : List String)
  deriving DecidableEq, Repr

/-- The collaborators and configuration `winebattlenet.play` consults.
External utilities (`winepath`, `shlex.split`, `os.path` probes, the
wine-layer executables, `get_env`) are opaque parameters. -/
structure PlayDeps where
  run_without_bnet : Bool
  autolaunch : Bool
  gameid : String
  runner_args : String
  game_args : String
  bnet_games : Except PyErr (Option BnetDict)
  winepath : Bytes → String
  isdir : String → Bool
  file_exists : String → Bool
  get_executable : String
  get_bnet_path : String
  env : List (String × String)
  shlex_split : String → List String

/-- `winebattlenet.play`.  The `run_without_bnet` branch resolves the game
directory from the product database, converts it with `winepath`, and
returns structured `DIR_NOT_FOUND` / `FILE_NOT_FOUND` error dicts for
missing paths; a `None` mapping raises `TypeError` (subscripting `None`)
and a missing gameid raises `KeyError`, as in Python.  The Battle.net
branch builds the launcher command; its config read-merge-write side
effects do not affect the returned value and are not modelled here. -/
def play (d : PlayDeps) : Except PyErr PlayOutcome :=
  if d.run_without_bnet then do
    let oconfig ← d.bnet_games
    match oconfig with
    | none => Except.error PyErr.typeError
    | some config =>
      match dictLookup config (strBytes d.gameid) with
      | none => Except.error PyErr.keyError
      | some rec =>
        let game_dir := d.winepath rec.path
        if !d.isdir game_dir then pure (PlayOutcome.errorDict "DIR_NOT_FOUND" game_dir)
        else
          match gamelistLookup d.gameid with
          | none => Except.error PyErr.keyError
          | some (_, exe, _) =>
            let game_path := game_dir ++ "/" ++ exe
            if !d.file_exists game_path then
              pure (PlayOutcome.errorDict "FILE_NOT_FOUND" game_path)
            else
              let command := [d.get_executable] ++
                (if d.runner_args = "" then [] else d.shlex_split d.runner_args) ++
                [game_path] ++
                (if d.game_args = "" then [] else d.shlex_split d.game_args)
              pure (PlayOutcome.launchInfo d.env command)
  else
    let launch_args := [d.get_executable, d.get_bnet_path]
    if d.autolaunch then
      pure (PlayOutcome.launchInfo d.env
        (launch_args ++ ["--exec=\"launch_uid " ++ d.gameid ++ "\""]))
    else if d.game_args = "" then
      match gamelistLookup d.gameid with
      | none => Except.error PyErr.keyError
      | some (_, _, code) =>
        pure (PlayOutcome.launchInfo d.env (launch_args ++ ["battlenet://" ++ code]))
    else
      pure (PlayOutcome.launchInfo d.env (launch_args ++ d.shlex_split d.game_args))

/-- The two stop signals `winebattlenet.prelaunch` can send: the graceful
`self.shutdown()` and the force `kill()`. -/
inductive StopEvent where
  | graceful
  | forceKill
  deriving DecidableEq, Repr

/-- The inner `check_shutdown(is_running, times)` of
`winebattlenet.prelaunch`: `times` iterations of "sleep one second, then
return True if the process is gone".  Time is the number of elapsed
one-second sleeps; `alive t` is what `is_running()` reports after `t`
sleeps.  Returns the (truthy) result together with the elapsed time; the
Python `None` fall-through after an exhausted loop is the falsy `false`. -/
def check_shutdown (alive : Nat → Bool) : Nat → Nat → Bool × Nat
  | t, 0 => (false, t)
  | t, times + 1 =>
    if alive (t + 1) then check_shutdown alive (t + 1) times
    else (true, t + 1)

/-- The result of the modelled `winebattlenet.prelaunch`: the returned
boolean, the total number of one-second polls that elapsed, and the stop
signals sent (in order). -/
structure PrelaunchResult where
  ok : Bool
  time : Nat
  events : List StopEvent
  deriving DecidableEq, Repr

/-- The shutdown-escalation part of `winebattlenet.prelaunch` (the
`super().prelaunch()` call into the wine layer is an external collaborator
and out of scope).  If Battle.net is running: send the graceful stop and
poll for 10 attempts; on failure force-kill and poll for 5 more attempts;
return False if it is still alive after all 15. -/
def prelaunch (alive : Nat → Bool) : PrelaunchResult :=
  if alive 0 then
    let r1 := check_shutdown alive 0 10
    if r1.1 then ⟨true, r1.2, [StopEvent.graceful]⟩
    else
      let r2 := check_shutdown alive r1.2 5
      if r2.1 then ⟨true, r2.2, [StopEvent.graceful, StopEvent.forceKill]⟩
      else ⟨false, r2.2, [StopEvent.graceful, StopEvent.forceKill]⟩
  else ⟨true, 0, []⟩

/-- `Runner.is_installed` from `lutris/runners/runner.py`: returns `True`
when `get_executable()` produced a truthy path that exists, and otherwise
falls off the end of the function — i.e. returns `None`, not `False`.
Python's `True`/`None` are rendered as `some true`/`none`. -/
def runner_is_installed (executable : Option String) (path_exists : String → Bool) :
    Option Bool :=
  match executable with
  | some exe => if exe ≠ "" && path_exists exe then some true else none
  | none => none

/-- `winebattlenet.is_installed`: False unless the wine layer is installed
(`is_wine_installed`, an external collaborator), the Battle.net executable
was located (`get_bnet_path`, whose registry probing is external), and the
default prefix exists; then the existence of the located executable.
Always returns an actual boolean. -/
def wbn_is_installed (runner_dir : String) (wine_installed : Bool)
    (bnet_path : Option String) (path_exists : String → Bool) : Bool :=
  if !wine_installed then false
  else
    match bnet_path with
    | none => false
    | some p =>
      if p = "" then false
      else if !path_exists ( get_default_prefix runner_dir none) then false
      else path_exists p

/-! ## Specification-side description of well-formed product databases -/

/-- One anchor-delimited record of the product database, as laid out by the
offset arithmetic of `products_parse`: the 4-byte anchor `0A a1 a2 0A`,
a length byte and `name`, one skipped byte `pad1`, a length byte and
`code`, three skipped bytes `p1 p2 p3`, a length byte and `path`. -/
structure BnetRecord where
  a1 : Nat
  a2 : Nat
  name : Bytes
  pad1 : Nat
  code : Bytes
  p1 : Nat
  p2 : Nat
  p3 : Nat
  path : Bytes
  deriving DecidableEq, Repr

/-- The byte serialisation of one record. -/
def encodeRecord (r : BnetRecord) : Bytes :=
  10 :: r.a1 :: r.a2 :: 10 :: r.name.length ::
    (r.name ++ r.pad1 :: r.code.length ::
      (r.code ++ r.p1 :: r.p2 :: r.p3 :: r.path.length :: r.path))

/-- The number of buffer bytes one record occupies. -/
def recSize (r : BnetRecord) : Nat :=
  11 + r.name.length + r.code.length + r.path.length

/-- Concatenation of a record list into a buffer. -/
def encodeList : List BnetRecord → Bytes
  | [] => []
  | r :: rs => encodeRecord r ++ encodeList rs

/-- The absolute start offsets of the records of `rs` when laid out
consecutively from `pos`. -/
def recStarts : Nat → List BnetRecord → List Nat
  | _, [] => []
  | pos, r :: rs => pos :: recStarts (pos + recSize r) rs

/-- The `ProdRec` a well-formed record parses to. -/
def toProd (r : BnetRecord) : ProdRec :=
  { gameid := r.name, path := r.path, code := r.code }

/-- Folding Python dict assignment over a record list (the reference
result of the `products_parse` loop). -/
def insertAll (d : BnetDict) : List BnetRecord → BnetDict
  | [] => d
  | r :: rs => insertAll (pyInsert d r.name (toProd r)) rs

/-- Well-formedness of one record: the anchor wildcards are not `0x0A`
(else the anchor would not match), every field fits its one-byte length
prefix and decodes as UTF-8, and all filler bytes are bytes. -/
def WFRec (r : BnetRecord) : Bool :=
  (r.a1 != 10) && (r.a2 != 10) &&
  (r.a1 < 256) && (r.a2 < 256) && (r.pad1 < 256) &&
  (r.p1 < 256) && (r.p2 < 256) && (r.p3 < 256) &&
  (r.name.length ≤ 255) && (r.code.length ≤ 255) && (r.path.length ≤ 255) &&
  utf8Valid r.name && utf8Valid r.code && utf8Valid r.path

/-- A buffer that consists of exactly the well-formed records `rs`, with
anchors occurring only at record boundaries (the "well-formed
anchor-delimited" shape: the anchors genuinely delimit the records and no
field content forges an extra anchor). -/
def WFBuffer (rs : List BnetRecord) (buf : Bytes) : Prop :=
  buf = encodeList rs ∧
  (∀ r ∈ rs, WFRec r = true) ∧
  (∀ j, j < buf.length → anchorAt buf j = true → j ∈ recStarts 0 rs)

/-! ## Concrete example inputs -/

/-- A record with gameid `"a"`, code `"b"`, path `"c"`. -/
def exRecA : BnetRecord := ⟨1, 1, [97], 0, [98], 0, 0, 0, [99]⟩

/-- A record with gameid `"d"`, code `"b"`, path `"c"`. -/
def exRecD : BnetRecord := ⟨1, 1, [100], 0, [98], 0, 0, 0, [99]⟩

/-- A record with the same gameid `"a"` as `exRecA` but path `"q"`. -/
def exRecA2 : BnetRecord := ⟨1, 1, [97], 0, [98], 0, 0, 0, [113]⟩

/-- Two well-formed records with distinct gameids. -/
def exPair : List BnetRecord := [exRecA, exRecD]

/-- Two well-formed records with the same gameid (a duplicate). -/
def exDup : List BnetRecord := [exRecA, exRecA2]

/-- The dict the duplicate database parses to (the later record wins). -/
def exDupDict : BnetDict := [([97], ⟨[97], [113], [98]⟩)]

/-- A filesystem holding the duplicate database at path `"db"`. -/
def exFs : String → Option Bytes :=
  fun p => if p = "db" then some (encodeList exDup) else none

/-- A buffer with one anchor whose record is truncated inside the final
path field: the path length byte declares 5 bytes but 0 remain. -/
def exTruncPath : Bytes := [10, 1, 1, 10, 0, 0, 0, 0, 0, 0, 5]

/-- A buffer that ends immediately after its only anchor match, so the
very first length-byte read is out of bounds. -/
def exTruncLen : Bytes := [10, 1, 1, 10]

/-- A buffer holding a single record (starting at 0, consuming all 22
bytes) whose name field contains a second anchor at offset 5. -/
def exOverlap : Bytes :=
  [10, 1, 1, 10, 11, 10, 3, 3, 10, 0, 0, 0, 0, 0, 0, 0, 0, 0, 0, 0, 0, 0]

/-- Concrete `play` collaborators: "run without Battle.net" configured,
gameid `"a"` resolvable in the product database, every disk probe failing. -/
def exPlayDeps : PlayDeps :=
  { run_without_bnet := true
    autolaunch := false
    gameid := "a"
    runner_args := ""
    game_args := ""
    bnet_games := Except.ok (some exDupDict)
    winepath := fun _ => "/games/ow"
    isdir := fun _ => false
    file_exists := fun _ => false
    get_executable := "wine"
    get_bnet_path := "bnet"
    env := []
    shlex_split := fun _ => [] }

/-! ## Lemmas about the anchor scan -/

theorem anchorAt_iff {buf : Bytes} {j : Nat} :
    anchorAt buf j = true ↔
      ∃ b1 b2, buf[j]? = some 10 ∧ buf[j+1]? = some b1 ∧ b1 ≠ 10 ∧
        buf[j+2]? = some b2 ∧ b2 ≠ 10 ∧ buf[j+3]? = some 10 := by
  simp only [anchorAt, Bool.and_eq_true]
  constructor
  · rintro ⟨⟨⟨h1, h2⟩, h3⟩, h4⟩
    cases e1 : buf[j]? <;> rw [e1] at h1 <;> try simp at h1
    cases e2 : buf[j+1]? <;> rw [e2] at h2 <;> try simp at h2
    cases e3 : buf[j+2]? <;> rw [e3] at h3 <;> try simp at h3
    cases e4 : buf[j+3]? <;> rw [e4] at h4 <;> try simp at h4
    subst h1 h4
    exact ⟨_, _, rfl, rfl, h2, rfl, h3, rfl⟩
  · rintro ⟨b1, b2, h1, h2, hb1, h3, hb2, h4⟩
    rw [h1, h2, h3, h4]
    simp [hb1, hb2]

theorem anchorAt_lt {buf : Bytes} {j : Nat} (h : anchorAt buf j = true) :
    j + 3 < buf.length := by
  obtain ⟨b1, b2, -, -, -, -, -, h4⟩ := anchorAt_iff.mp h
  exact (List.getElem?_eq_some_iff.mp h4).1

theorem findFromAux_ge {buf : Bytes} :
    ∀ {fuel pos i : Nat}, findFromAux fuel buf pos = some i →
      pos ≤ i ∧ anchorAt buf i = true := by
  intro fuel
  induction fuel with
  | zero => intro pos i h; simp [findFromAux] at h
  | succ n ih =>
    intro pos i h
    simp only [findFromAux] at h
    split at h
    · simp at h
    · split at h
      · cases h
        exact ⟨Nat.le_refl _, by assumption⟩
      · obtain ⟨h1, h2⟩ := ih h
        exact ⟨by omega, h2⟩

theorem findFromAux_none_of_no_anchor {buf : Bytes} :
    ∀ (fuel pos : Nat), (∀ j, pos ≤ j → anchorAt buf j = false) →
      findFromAux fuel buf pos = none := by
  intro fuel
  induction fuel with
  | zero => intro pos _; rfl
  | succ n ih =>
    intro pos hno
    simp only [findFromAux]
    split
    · rfl
    · have h0 := hno pos (Nat.le_refl _)
      rw [h0]
      simp only [Bool.false_eq_true, if_false]
      exact ih (pos + 1) (fun j hj => hno j (by omega))

theorem findFromAux_some_of {buf : Bytes} :
    ∀ (fuel pos i : Nat), buf.length ≤ pos + fuel → pos ≤ i →
      anchorAt buf i = true →
      (∀ j, pos ≤ j → j < i → anchorAt buf j = false) →
      findFromAux fuel buf pos = some i := by
  intro fuel
  induction fuel with
  | zero =>
    intro pos i hfuel hpi hanch _
    have := anchorAt_lt hanch
    omega
  | succ n ih =>
    intro pos i hfuel hpi hanch hmin
    have hilt := anchorAt_lt hanch
    simp only [findFromAux]
    split
    · omega
    · rcases Nat.eq_or_lt_of_le hpi with heq | hlt
      · subst heq
        rw [hanch]
        rfl
      · have h0 := hmin pos (Nat.le_refl _) hlt
        rw [h0]
        simp only [Bool.false_eq_true, if_false]
        exact ih (pos + 1) i (by omega) hlt hanch
          (fun j hj hji => hmin j (by omega) hji)

theorem findFrom_ge {buf : Bytes} {pos i : Nat} (h : findFrom buf pos = some i) :
    pos ≤ i ∧ anchorAt buf i = true :=
  findFromAux_ge h

theorem findFrom_none_of_no_anchor {buf : Bytes} {pos : Nat}
    (h : ∀ j, pos ≤ j → anchorAt buf j = false) : findFrom buf pos = none :=
  findFromAux_none_of_no_anchor _ pos h

theorem findFrom_some_of {buf : Bytes} {pos i : Nat} (hpi : pos ≤ i)
    (hanch : anchorAt buf i = true)
    (hmin : ∀ j, pos ≤ j → j < i → anchorAt buf j = false) :
    findFrom buf pos = some i :=
  findFromAux_some_of _ pos i (by omega) hpi hanch hmin

/-! ## Lemmas about record parsing -/

theorem ok_bind {ε α β : Type} (a : α) (f : α → Except ε β) :
    (Except.ok a >>= f) = f a := rfl

theorem pySlice_drop (buf : Bytes) (i m : Nat) :
    pySlice buf i (i + m) = (buf.drop i).take m := by
  unfold pySlice
  rw [List.drop_take]
  congr 1
  omega

theorem parseRecord_ok {buf : Bytes} {pos : Nat} {r : BnetRecord} {tail : Bytes}
    (hwf : WFRec r = true) (hd : buf.drop pos = encodeRecord r ++ tail) :
    parseRecord buf pos = Except.ok (toProd r) := by
  simp only [WFRec, Bool.and_eq_true] at hwf
  obtain ⟨⟨⟨_, hvn⟩, hvc⟩, hvp⟩ := hwf
  have d0 : buf.drop pos = 10 :: r.a1 :: r.a2 :: 10 :: r.name.length ::
      (r.name ++ (r.pad1 :: r.code.length :: (r.code ++
        (r.p1 :: r.p2 :: r.p3 :: r.path.length :: (r.path ++ tail))))) := by
    rw [hd]
    simp [encodeRecord, List.cons_append, List.append_assoc]
  have d5 : buf.drop (pos + 5) = r.name ++ (r.pad1 :: r.code.length :: (r.code ++
      (r.p1 :: r.p2 :: r.p3 :: r.path.length :: (r.path ++ tail)))) := by
    rw [← List.drop_drop, d0]
    simp
  have hA : byteAt buf (pos + 4) = Except.ok r.name.length := by
    have h : buf[pos + 4]? = some r.name.length := by
      rw [← List.getElem?_drop, d0]
      simp
    simp [byteAt, h]
  have hn1 : pySlice buf (pos + 4 + 1) (pos + 4 + 1 + r.name.length) = r.name := by
    rw [pySlice_drop, show pos + 4 + 1 = pos + 5 from by omega, d5]
    exact List.take_left' rfl
  have d6 : buf.drop (pos + 4 + 1 + r.name.length + 1) =
      r.code.length :: (r.code ++
        (r.p1 :: r.p2 :: r.p3 :: r.path.length :: (r.path ++ tail))) := by
    rw [show pos + 4 + 1 + r.name.length + 1 = pos + 5 + (r.name.length + 1) from by omega,
      ← List.drop_drop, d5, List.drop_append]
    rfl
  have hC : byteAt buf (pos + 4 + 1 + r.name.length + 1) = Except.ok r.code.length := by
    have h : buf[pos + 4 + 1 + r.name.length + 1]? = some r.code.length := by
      rw [← List.head?_drop, d6]
      rfl
    simp [byteAt, h]
  have d7 : buf.drop (pos + 4 + 1 + r.name.length + 1 + 1) = r.code ++
      (r.p1 :: r.p2 :: r.p3 :: r.path.length :: (r.path ++ tail)) := by
    rw [← List.drop_drop, d6]
    rfl
  have hc1 : pySlice buf (pos + 4 + 1 + r.name.length + 1 + 1)
      (pos + 4 + 1 + r.name.length + 1 + 1 + r.code.length) = r.code := by
    rw [pySlice_drop, d7]
    exact List.take_left' rfl
  have d8 : buf.drop (pos + 4 + 1 + r.name.length + 1 + 1 + r.code.length + 3) =
      r.path.length :: (r.path ++ tail) := by
    rw [show pos + 4 + 1 + r.name.length + 1 + 1 + r.code.length + 3 =
        pos + 4 + 1 + r.name.length + 1 + 1 + (r.code.length + 3) from by omega,
      ← List.drop_drop, d7, List.drop_append]
    rfl
  have hE : byteAt buf (pos + 4 + 1 + r.name.length + 1 + 1 + r.code.length + 3) =
      Except.ok r.path.length := by
    have h : buf[pos + 4 + 1 + r.name.length + 1 + 1 + r.code.length + 3]? =
        some r.path.length := by
      rw [← List.head?_drop, d8]
      rfl
    simp [byteAt, h]
  have d9 : buf.drop (pos + 4 + 1 + r.name.length + 1 + 1 + r.code.length + 3 + 1) =
      r.path ++ tail := by
    rw [← List.drop_drop, d8]
    rfl
  have hp1 : pySlice buf (pos + 4 + 1 + r.name.length + 1 + 1 + r.code.length + 3 + 1)
      (pos + 4 + 1 + r.name.length + 1 + 1 + r.code.length + 3 + 1 + r.path.length) =
      r.path := by
    rw [pySlice_drop, d9]
    exact List.take_left' rfl
  unfold parseRecord
  simp only []
  rw [hA, ok_bind, hn1, show pyDecode r.name = Except.ok r.name from by
    simp [pyDecode, hvn], ok_bind]
  rw [hC, ok_bind, hc1, show pyDecode r.code = Except.ok r.code from by
    simp [pyDecode, hvc], ok_bind]
  rw [hE, ok_bind, hp1, show pyDecode r.path = Except.ok r.path from by
    simp [pyDecode, hvp], ok_bind]
  rfl

/-! ## The main scan lemma: a well-formed buffer parses to its records -/

theorem length_encodeRecord (r : BnetRecord) : (encodeRecord r).length = recSize r := by
  simp [encodeRecord, recSize]
  omega

theorem recStarts_ge : ∀ (rs : List BnetRecord) (pos s : Nat),
    s ∈ recStarts pos rs → pos ≤ s := by
  intro rs
  induction rs with
  | nil => intro pos s hs; simp [recStarts] at hs
  | cons r rs ih =>
    intro pos s hs
    simp only [recStarts, List.mem_cons] at hs
    rcases hs with rfl | hs
    · exact Nat.le_refl _
    · have := ih _ _ hs
      omega

theorem anchorAt_record_start {buf : Bytes} {pos : Nat} {r : BnetRecord} {tail : Bytes}
    (hwf : WFRec r = true) (hd : buf.drop pos = encodeRecord r ++ tail) :
    anchorAt buf pos = true := by
  simp only [WFRec, Bool.and_eq_true] at hwf
  obtain ⟨⟨⟨⟨⟨⟨⟨⟨⟨⟨⟨⟨⟨h1, h2⟩, _⟩, _⟩, _⟩, _⟩, _⟩, _⟩, _⟩, _⟩, _⟩, _⟩, _⟩, _⟩ := hwf
  have e0 : buf[pos]? = some 10 := by
    rw [← List.head?_drop, hd]
    rfl
  have e1 : buf[pos + 1]? = some r.a1 := by
    rw [← List.head?_drop, ← List.drop_drop, hd]
    rfl
  have e2 : buf[pos + 2]? = some r.a2 := by
    rw [← List.head?_drop, ← List.drop_drop, hd]
    rfl
  have e3 : buf[pos + 3]? = some 10 := by
    rw [← List.head?_drop, ← List.drop_drop, hd]
    rfl
  exact anchorAt_iff.mpr ⟨r.a1, r.a2, e0, e1, by simpa using h1, e2, by simpa using h2, e3⟩

theorem scan_fold (buf : Bytes) :
    ∀ (rs : List BnetRecord) (q pos fuel : Nat),
      rs.length + 1 ≤ fuel → q ≤ pos →
      buf.drop pos = encodeList rs →
      (∀ r ∈ rs, WFRec r = true) →
      (∀ j, q ≤ j → anchorAt buf j = true → j ∈ recStarts pos rs) →
      findMatchesAux fuel buf q = recStarts pos rs ∧
        ∀ d, (recStarts pos rs).foldlM (parseStep buf) d = Except.ok (insertAll d rs) := by
  intro rs
  induction rs with
  | nil =>
    intro q pos fuel hfuel hqp hd hwf hstray
    obtain ⟨f, rfl⟩ : ∃ f, fuel = f + 1 := ⟨fuel - 1, by omega⟩
    have hno : ∀ j, q ≤ j → anchorAt buf j = false := by
      intro j hj
      by_contra hcon
      have htrue : anchorAt buf j = true := by
        revert hcon
        cases anchorAt buf j <;> simp
      have := hstray j hj htrue
      simp [recStarts] at this
    refine ⟨?_, fun d => rfl⟩
    simp only [findMatchesAux]
    rw [findFrom_none_of_no_anchor hno]
    rfl
  | cons r rs ih =>
    intro q pos fuel hfuel hqp hd hwf hstray
    have hd' : buf.drop pos = encodeRecord r ++ encodeList rs := hd
    have hwfr : WFRec r = true := hwf r (List.mem_cons_self r rs)
    have hanch : anchorAt buf pos = true := anchorAt_record_start hwfr hd'
    have hd2 : buf.drop (pos + recSize r) = encodeList rs := by
      rw [show pos + recSize r = pos + (encodeRecord r).length from by
        rw [length_encodeRecord], ← List.drop_drop, hd', List.drop_left]
    have hmin : ∀ j, q ≤ j → j < pos → anchorAt buf j = false := by
      intro j hqj hjp
      by_contra hcon
      have htrue : anchorAt buf j = true := by
        revert hcon
        cases anchorAt buf j <;> simp
      have hmem := hstray j hqj htrue
      simp only [recStarts, List.mem_cons] at hmem
      rcases hmem with rfl | hmem
      · omega
      · have := recStarts_ge rs _ _ hmem
        omega
    have hff : findFrom buf q = some pos := findFrom_some_of hqp hanch hmin
    obtain ⟨f, rfl⟩ : ∃ f, fuel = f + 1 := ⟨fuel - 1, by omega⟩
    have hsize : 11 ≤ recSize r := by
      unfold recSize
      omega
    have hstray' : ∀ j, pos + 4 ≤ j → anchorAt buf j = true →
        j ∈ recStarts (pos + recSize r) rs := by
      intro j hj ha
      have hmem := hstray j (by omega) ha
      simp only [recStarts, List.mem_cons] at hmem
      rcases hmem with rfl | hmem
      · omega
      · exact hmem
    obtain ⟨ihscan, ihfold⟩ := ih (pos + 4) (pos + recSize r) f
      (by simp at hfuel; omega) (by omega) hd2
      (fun x hx => hwf x (List.mem_cons_of_mem r hx)) hstray'
    constructor
    · simp only [findMatchesAux, hff]
      rw [ihscan]
      rfl
    · intro d
      rw [show recStarts pos (r :: rs) = pos :: recStarts (pos + recSize r) rs from rfl,
        List.foldlM_cons]
      have hstep : parseStep buf d pos = Except.ok (pyInsert d r.name (toProd r)) := by
        unfold parseStep
        rw [parseRecord_ok hwfr hd', ok_bind]
        rfl
      rw [hstep, ok_bind, ihfold]
      rfl

theorem length_encodeList_ge : ∀ rs : List BnetRecord, rs.length ≤ (encodeList rs).length := by
  intro rs
  induction rs with
  | nil => simp [encodeList]
  | cons r rs ih =>
    have h1 : (encodeList (r :: rs)).length = recSize r + (encodeList rs).length := by
      simp [encodeList, length_encodeRecord]
    have h2 : 11 ≤ recSize r := by
      unfold recSize
      omega
    simp only [List.length_cons]
    omega

theorem products_parse_wfbuffer {rs : List BnetRecord} {buf : Bytes}
    (h : WFBuffer rs buf) : products_parse buf = Except.ok (insertAll [] rs) := by
  obtain ⟨hbuf, hwf, hstray⟩ := h
  subst hbuf
  have hstray' : ∀ j, 0 ≤ j → anchorAt (encodeList rs) j = true → j ∈ recStarts 0 rs := by
    intro j _ ha
    exact hstray j (by have := anchorAt_lt ha; omega) ha
  obtain ⟨hscan, hfold⟩ := scan_fold (encodeList rs) rs 0 0 ((encodeList rs).length + 1)
    (by have := length_encodeList_ge rs; omega) (Nat.le_refl 0) (by simp) hwf hstray'
  unfold products_parse regex_finditer
  rw [hscan]
  exact hfold []

/-! ## Python dict lemmas -/

theorem dictLookup_pyInsert_self : ∀ (d : BnetDict) (k : Bytes) (v : ProdRec),
    dictLookup (pyInsert d k v) k = some v := by
  intro d
  induction d with
  | nil => intro k v; simp [pyInsert, dictLookup]
  | cons e rest ih =>
    intro k v
    obtain ⟨k', v'⟩ := e
    by_cases h : k' = k
    · simp [pyInsert, h, dictLookup]
    · simp [pyInsert, h, dictLookup, ih]

theorem dictLookup_pyInsert_ne : ∀ (d : BnetDict) (k : Bytes) (v : ProdRec) (k2 : Bytes),
    k ≠ k2 → dictLookup (pyInsert d k v) k2 = dictLookup d k2 := by
  intro d
  induction d with
  | nil => intro k v k2 h; simp [pyInsert, dictLookup, h]
  | cons e rest ih =>
    intro k v k2 h
    obtain ⟨k', v'⟩ := e
    by_cases h1 : k' = k
    · subst h1
      simp [pyInsert, dictLookup, h]
    · simp only [pyInsert, if_neg h1]
      by_cases h2 : k' = k2
      · simp [dictLookup, h2]
      · simp [dictLookup, h2, ih _ _ _ h]

theorem length_pyInsert_new : ∀ (d : BnetDict) (k : Bytes) (v : ProdRec),
    dictLookup d k = none → (pyInsert d k v).length = d.length + 1 := by
  intro d
  induction d with
  | nil => intro k v _; rfl
  | cons e rest ih =>
    intro k v h
    obtain ⟨k', v'⟩ := e
    by_cases h1 : k' = k
    · simp [dictLookup, h1] at h
    · simp only [dictLookup, if_neg h1] at h
      simp [pyInsert, if_neg h1, ih _ _ h]

theorem insertAll_append (l1 : List BnetRecord) : ∀ (d : BnetDict) (l2 : List BnetRecord),
    insertAll d (l1 ++ l2) = insertAll (insertAll d l1) l2 := by
  induction l1 with
  | nil => intro d l2; rfl
  | cons r rs ih =>
    intro d l2
    simp only [List.cons_append, insertAll]
    exact ih _ _

theorem dictLookup_insertAll_not_mem : ∀ (rs : List BnetRecord) (d : BnetDict) (k : Bytes),
    (∀ x ∈ rs, x.name ≠ k) → dictLookup (insertAll d rs) k = dictLookup d k := by
  intro rs
  induction rs with
  | nil => intro d k _; rfl
  | cons r rs ih =>
    intro d k h
    simp only [insertAll]
    rw [ih _ _ (fun x hx => h x (List.mem_cons_of_mem r hx)),
      dictLookup_pyInsert_ne _ _ _ _ (h r (List.mem_cons_self r rs))]

theorem dictLookup_insertAll_nodup : ∀ (rs : List BnetRecord) (d : BnetDict) (r : BnetRecord),
    r ∈ rs → (rs.map BnetRecord.name).Nodup →
    dictLookup (insertAll d rs) r.name = some (toProd r) := by
  intro rs
  induction rs with
  | nil => intro d r h; simp at h
  | cons r0 rs ih =>
    intro d r hr hnd
    simp only [List.map_cons, List.nodup_cons] at hnd
    obtain ⟨hnotin, hnd'⟩ := hnd
    rcases List.mem_cons.mp hr with rfl | hr'
    · simp only [insertAll]
      rw [dictLookup_insertAll_not_mem rs _ _ (fun x hx hxe => hnotin (by
          rw [← hxe]
          exact List.mem_map_of_mem BnetRecord.name hx)),
        dictLookup_pyInsert_self]
    · exact ih _ _ hr' hnd'

theorem length_insertAll_nodup : ∀ (rs : List BnetRecord) (d : BnetDict),
    (∀ r ∈ rs, dictLookup d r.name = none) → (rs.map BnetRecord.name).Nodup →
    (insertAll d rs).length = d.length + rs.length := by
  intro rs
  induction rs with
  | nil => intro d _ _; rfl
  | cons r0 rs ih =>
    intro d hfresh hnd
    simp only [List.map_cons, List.nodup_cons] at hnd
    obtain ⟨hnotin, hnd'⟩ := hnd
    simp only [insertAll]
    rw [ih _ ?_ hnd']
    · rw [length_pyInsert_new _ _ _ (hfresh r0 (List.mem_cons_self r0 rs))]
      simp only [List.length_cons]
      omega
    · intro r hr
      have hne : r0.name ≠ r.name := by
        intro he
        refine hnotin ?_
        rw [he]
        exact List.mem_map_of_mem BnetRecord.name hr
      rw [dictLookup_pyInsert_ne _ _ _ _ hne]
      exact hfresh r (List.mem_cons_of_mem r0 hr)

/-! ## Claims C1, C2, C3, C7, C8: the Byte-Record Scanner -/

/-- Claim C1: for every byte buffer consisting of N well-formed
anchor-delimited product records with distinct gameids, `products_parse`
returns a mapping with exactly N entries keyed by gameid, and for each
record the path and code of the returned entry are exactly the decoded
path and code substrings of that record. -/
theorem claim_c1_products_parse_complete (rs : List BnetRecord) (buf : Bytes)
    (hwf : WFBuffer rs buf) (hnd : (rs.map BnetRecord.name).Nodup) :
    ∃ d, products_parse buf = Except.ok d ∧ d.length = rs.length ∧
      ∀ r ∈ rs, dictLookup d r.name = some (toProd r) := by
  refine ⟨insertAll [] rs, products_parse_wfbuffer hwf, ?_, ?_⟩
  · have h := length_insertAll_nodup rs [] (fun r _ => rfl) hnd
    simpa using h
  · intro r hr
    exact dictLookup_insertAll_nodup rs [] r hr hnd

/-- Witness for C1 at a concrete two-record database. -/
theorem claim_c1_witness :
    (WFBuffer exPair (encodeList exPair) ∧ (exPair.map BnetRecord.name).Nodup) ∧
    (∃ d, products_parse (encodeList exPair) = Except.ok d ∧ d.length = exPair.length ∧
      ∀ r ∈ exPair, dictLookup d r.name = some (toProd r)) :=
  ⟨⟨⟨by decide, by decide, by decide⟩, by decide⟩,
    claim_c1_products_parse_complete exPair (encodeList exPair)
      ⟨by decide, by decide, by decide⟩ (by decide)⟩

theorem error_bind {ε α β : Type} (e : ε) (f : α → Except ε β) :
    ((Except.error e : Except ε α) >>= f) = Except.error e := rfl

theorem foldlM_parse_error (buf : Bytes) :
    ∀ (l : List Nat) (d : BnetDict) (s : Nat) (e : PyErr), s ∈ l →
      parseRecord buf s = Except.error e →
      ∃ e2, l.foldlM (parseStep buf) d = Except.error e2 := by
  intro l
  induction l with
  | nil => intro d s e h _; simp at h
  | cons x xs ih =>
    intro d s e hmem herr
    rcases List.mem_cons.mp hmem with rfl | hmem'
    · refine ⟨e, ?_⟩
      have hps : parseStep buf d s = Except.error e := by
        unfold parseStep
        rw [herr, error_bind]
      rw [List.foldlM_cons, hps, error_bind]
    · cases hx : parseStep buf d x with
      | error e2 => exact ⟨e2, by rw [List.foldlM_cons, hx, error_bind]⟩
      | ok d2 =>
        obtain ⟨e2, h2⟩ := ih d2 s e hmem' herr
        exact ⟨e2, by rw [List.foldlM_cons, hx, ok_bind, h2]⟩

/-- Counterexample to claim C2 as stated: `exTruncPath` contains an anchor
match at 0 and is too short to satisfy the final length-prefixed path read
(its length byte at offset 10 declares 5 bytes, but the buffer ends
there), yet `products_parse` does not fail — it returns a mapping whose
record has a silently truncated (empty) path. -/
theorem claim_c2_counterexample :
    exTruncPath.length = 11 ∧
    byteAt exTruncPath 10 = Except.ok 5 ∧
    products_parse exTruncPath =
      Except.ok [([], { gameid := [], path := [], code := [] })] :=
  ⟨by decide, rfl, rfl⟩

/-- Claim C2 (amended): when a matched record's field reads run off the end
of the buffer at a length-byte read — here, the first length byte at
`match.start + 4` — the whole scan fails with an error and no partial
mapping is returned; truncation that falls inside the final path field's
content is instead silently tolerated by slicing (see the
counterexample). -/
theorem claim_c2_truncation_error (buf : Bytes) (s : Nat)
    (hs : s ∈ regex_finditer buf) (htrunc : buf.length ≤ s + 4) :
    ∃ e, products_parse buf = Except.error e := by
  have herr : parseRecord buf s = Except.error PyErr.indexError := by
    have h : buf[s + 4]? = none := List.getElem?_eq_none htrunc
    unfold parseRecord
    simp only []
    rw [show byteAt buf (s + 4) = Except.error PyErr.indexError from by
      simp [byteAt, h], error_bind]
  exact foldlM_parse_error buf _ [] s _ hs herr

/-- Witness for the amended C2 at a concrete truncated buffer. -/
theorem claim_c2_witness :
    (0 ∈ regex_finditer exTruncLen ∧ exTruncLen.length ≤ 0 + 4) ∧
    (∃ e, products_parse exTruncLen = Except.error e) :=
  ⟨⟨by decide, by decide⟩, claim_c2_truncation_error exTruncLen 0 (by decide) (by decide)⟩

/-- Counterexample to claim C3 as stated: in `exOverlap` the record
starting at 0 consumes the entire 22-byte buffer (name length 11, so its
consumed field region is offsets 4–21), and its name field contains a
second anchor occurrence at offset 5; the scan nevertheless matches again
at offset 5 — strictly inside the consumed field region — and parses a
second record, so the mapping has two entries instead of one. -/
theorem claim_c3_counterexample :
    regex_finditer exOverlap = [0, 5] ∧
    exOverlap.length = 22 ∧
    products_parse exOverlap = Except.ok
      [([10, 3, 3, 10, 0, 0, 0, 0, 0, 0, 0],
        { gameid := [10, 3, 3, 10, 0, 0, 0, 0, 0, 0, 0], path := [], code := [] }),
       ([], { gameid := [], path := [], code := [] })] :=
  ⟨by decide, by decide, rfl⟩

theorem findMatchesAux_ge :
    ∀ (fuel : Nat) (buf : Bytes) (pos x : Nat),
      x ∈ findMatchesAux fuel buf pos → pos ≤ x := by
  intro fuel
  induction fuel with
  | zero => intro buf pos x h; simp [findMatchesAux] at h
  | succ f ih =>
    intro buf pos x h
    simp only [findMatchesAux] at h
    cases hf : findFrom buf pos with
    | none => rw [hf] at h; simp at h
    | some i =>
      rw [hf] at h
      have hge := (findFrom_ge hf).1
      rcases List.mem_cons.mp h with rfl | h'
      · exact hge
      · have := ih buf (i + 4) x h'
        omega

/-- Claim C3 (amended): the scan advances non-overlappingly past the
4-byte anchor match only — consecutive match positions are at least 4
apart, so an anchor occurrence overlapping the matched 4 bytes is never
re-scanned; anchor occurrences later inside a record's consumed field
region, however, are treated as starts of further records (see the
counterexample). -/
theorem claim_c3_nonoverlapping_matches (buf : Bytes) :
    (regex_finditer buf).Chain' (fun a b => a + 4 ≤ b) := by
  have main : ∀ (fuel pos : Nat),
      (findMatchesAux fuel buf pos).Chain' (fun a b => a + 4 ≤ b) := by
    intro fuel
    induction fuel with
    | zero => intro pos; simp [findMatchesAux]
    | succ f ih =>
      intro pos
      simp only [findMatchesAux]
      cases hf : findFrom buf pos with
      | none => simp
      | some i =>
        rw [List.chain'_cons']
        exact ⟨fun y hy => findMatchesAux_ge f buf (i + 4) y (List.mem_of_mem_head? hy),
          ih (i + 4)⟩
  exact main _ 0

/-- Claim C7: `products_parse` is a pure deterministic function of the
input bytes — equal buffers always parse to equal mappings — and hence two
sequential `get_bnet_games` reads of an unchanged filesystem return
identical results. -/
theorem claim_c7_deterministic :
    (∀ (runner_dir : String) (fs : String → Option Bytes),
      get_bnet_games runner_dir fs = get_bnet_games runner_dir fs) ∧
    (∀ b1 b2 : Bytes, b1 = b2 → products_parse b1 = products_parse b2) :=
  ⟨fun _ _ => rfl, fun _ _ h => by rw [h]⟩

/-- Witness for C7 at a concrete buffer. -/
theorem claim_c7_witness :
    (exTruncPath = exTruncPath) ∧
    products_parse exTruncPath = products_parse exTruncPath :=
  ⟨rfl, claim_c7_deterministic.2 exTruncPath exTruncPath rfl⟩

/-- Claim C8: when the parsed mapping lacks the `'battle.net'` key,
`read_config` returns `None` rather than the partial mapping; and
duplicate gameids in the scan are resolved last-match-wins (the entry for
a gameid is the one of the last record in scan order bearing it). -/
theorem claim_c8_missing_root_and_last_wins :
    (∀ (fs : String → Option Bytes) (path : String) (buf : Bytes) (d : BnetDict),
      fs path = some buf → products_parse buf = Except.ok d →
      dictLookup d bnetKey = none → read_config fs path = Except.ok none) ∧
    (∀ (rs l1 l2 : List BnetRecord) (r : BnetRecord) (buf : Bytes),
      WFBuffer rs buf → rs = l1 ++ r :: l2 → (∀ x ∈ l2, x.name ≠ r.name) →
      ∃ d, products_parse buf = Except.ok d ∧
        dictLookup d r.name = some (toProd r)) := by
  constructor
  · intro fs path buf d hfs hparse hlook
    unfold read_config
    rw [hfs]
    simp only []
    rw [hparse, ok_bind, hlook]
    rfl
  · intro rs l1 l2 r buf hwfb heq hl2
    refine ⟨insertAll [] rs, products_parse_wfbuffer hwfb, ?_⟩
    subst heq
    rw [insertAll_append,
      show insertAll (insertAll [] l1) (r :: l2) =
        insertAll (pyInsert (insertAll [] l1) r.name (toProd r)) l2 from rfl,
      dictLookup_insertAll_not_mem l2 _ _ hl2, dictLookup_pyInsert_self]

/-- Witness for C8: a database with a duplicated gameid and no
`'battle.net'` record. -/
theorem claim_c8_witness :
    (exFs "db" = some (encodeList exDup) ∧
      products_parse (encodeList exDup) = Except.ok exDupDict ∧
      dictLookup exDupDict bnetKey = none ∧
      WFBuffer exDup (encodeList exDup) ∧
      exDup = [exRecA] ++ exRecA2 :: [] ∧
      (∀ x ∈ ([] : List BnetRecord), x.name ≠ exRecA2.name)) ∧
    read_config exFs "db" = Except.ok none ∧
    (∃ d, products_parse (encodeList exDup) = Except.ok d ∧
      dictLookup d exRecA2.name = some (toProd exRecA2)) :=
  ⟨⟨rfl, rfl, by decide, ⟨by decide, by decide, by decide⟩, by decide, by decide⟩,
    claim_c8_missing_root_and_last_wins.1 exFs "db" (encodeList exDup) exDupDict
      rfl rfl (by decide),
    claim_c8_missing_root_and_last_wins.2 exDup [exRecA] [] exRecA2 (encodeList exDup)
      ⟨by decide, by decide, by decide⟩ (by decide) (by decide)⟩

/-! ## Claim C4: shutdown escalation in prelaunch -/

theorem check_shutdown_time (alive : Nat → Bool) :
    ∀ (times t0 : Nat), t0 ≤ (check_shutdown alive t0 times).2 ∧
      (check_shutdown alive t0 times).2 ≤ t0 + times := by
  intro times
  induction times with
  | zero => intro t0; simp [check_shutdown]
  | succ n ih =>
    intro t0
    simp only [check_shutdown]
    split
    · have := ih (t0 + 1)
      constructor
      · omega
      · omega
    · simp

theorem check_shutdown_all_alive (alive : Nat → Bool) (h : ∀ t, alive t = true) :
    ∀ (times t0 : Nat), check_shutdown alive t0 times = (false, t0 + times) := by
  intro times
  induction times with
  | zero => intro t0; simp [check_shutdown]
  | succ n ih =>
    intro t0
    simp only [check_shutdown, h (t0 + 1), if_true]
    rw [ih (t0 + 1)]
    congr 1
    omega

/-- Counterexample to claim C4 as stated: against a process that never
dies, `prelaunch` sends the graceful stop, polls 10 times, force-kills,
and then polls only 5 more times (10 through 15) — so the escalated
force-kill tier is SHORTER than the graceful tier, not longer as the
claim requires. -/
theorem claim_c4_counterexample :
    prelaunch (fun _ => true) =
      ⟨false, 15, [StopEvent.graceful, StopEvent.forceKill]⟩ ∧
    ¬ (10 < 15 - 10) :=
  ⟨rfl, by decide⟩

/-- Claim C4 (amended): `prelaunch` first sends the graceful stop and
polls liveness once per second for a bounded tier of 10 attempts, then
escalates to force-kill and polls for a shorter bounded tier of 5
attempts; the whole run takes at most 15 polls, and against a process
that never dies it returns unsuccessfully (False) after exactly 15 polls
with both signals sent, rather than polling indefinitely. -/
theorem claim_c4_bounded_escalation (alive : Nat → Bool) :
    (prelaunch alive).time ≤ 15 ∧
    ((∀ t, alive t = true) →
      prelaunch alive = ⟨false, 15, [StopEvent.graceful, StopEvent.forceKill]⟩) := by
  constructor
  · have h1 := check_shutdown_time alive 10 0
    have h2 := check_shutdown_time alive 5 (check_shutdown alive 0 10).2
    unfold prelaunch
    simp only []
    split
    · split
      · show (check_shutdown alive 0 10).2 ≤ 15
        omega
      · split
        · show (check_shutdown alive (check_shutdown alive 0 10).2 5).2 ≤ 15
          omega
        · show (check_shutdown alive (check_shutdown alive 0 10).2 5).2 ≤ 15
          omega
    · show (0 : Nat) ≤ 15
      omega
  · intro hall
    have e1 : check_shutdown alive 0 10 = (false, 10) := by
      have := check_shutdown_all_alive alive hall 10 0
      simpa using this
    have e2 : check_shutdown alive 10 5 = (false, 15) := by
      have := check_shutdown_all_alive alive hall 5 10
      simpa using this
    unfold prelaunch
    simp [hall 0, e1, e2]

/-- Witness for the amended C4 at the never-dying process. -/
theorem claim_c4_witness :
    (∀ t : Nat, (fun _ : Nat => true) t = true) ∧
    prelaunch (fun _ => true) =
      ⟨false, 15, [StopEvent.graceful, StopEvent.forceKill]⟩ :=
  ⟨fun _ => rfl, (claim_c4_bounded_escalation (fun _ => true)).2 (fun _ => rfl)⟩

/-! ## Claim C5: structured error from play -/

/-- Claim C5: with the "run without Battle.net" option enabled and the
resolved game directory missing on disk, `play` returns the structured
`{'error': 'DIR_NOT_FOUND', 'file': <dir>}` value instead of raising. -/
theorem claim_c5_play_missing_dir (d : PlayDeps) (config : BnetDict) (rec : ProdRec)
    (hrb : d.run_without_bnet = true)
    (hbg : d.bnet_games = Except.ok (some config))
    (hlook : dictLookup config (strBytes d.gameid) = some rec)
    (hdir : d.isdir (d.winepath rec.path) = false) :
    play d = Except.ok (PlayOutcome.errorDict "DIR_NOT_FOUND" (d.winepath rec.path)) := by
  unfold play
  rw [hrb]
  simp only [if_true]
  rw [hbg, ok_bind]
  simp only [hlook, hdir]
  rfl

/-- Witness for C5 at concrete collaborators. -/
theorem claim_c5_witness :
    (exPlayDeps.run_without_bnet = true ∧
      exPlayDeps.bnet_games = Except.ok (some exDupDict) ∧
      dictLookup exDupDict (strBytes exPlayDeps.gameid) = some ⟨[97], [113], [98]⟩ ∧
      exPlayDeps.isdir (exPlayDeps.winepath ([113] : Bytes)) = false) ∧
    play exPlayDeps = Except.ok (PlayOutcome.errorDict "DIR_NOT_FOUND" "/games/ow") :=
  ⟨⟨rfl, rfl, by decide, rfl⟩,
    claim_c5_play_missing_dir exPlayDeps exDupDict ⟨[97], [113], [98]⟩
      rfl rfl (by decide) rfl⟩

/-! ## Claim C6: idempotent prefix provisioning -/

theorem archOrDefault_norm (arch : Option String) :
    archOrDefault (some (archOrDefault arch)) = archOrDefault arch := by
  unfold archOrDefault default_arch
  cases arch with
  | none => simp
  | some s =>
    by_cases h : s = "" <;> simp [h]

theorem get_default_prefix_norm (runner_dir : String) (arch : Option String) :
    get_default_prefix runner_dir (some (archOrDefault arch)) =
      get_default_prefix runner_dir arch := by
  unfold get_default_prefix
  rw [archOrDefault_norm]

theorem get_or_create_fst (runner_dir : String) (fs : List String) (arch : Option String) :
    ( get_or_create_default_prefix runner_dir fs arch).1 =
      get_default_prefix runner_dir arch := by
  unfold get_or_create_default_prefix
  simp only []
  rw [get_default_prefix_norm]
  split
  · rfl
  · rfl

/-- Claim C6: `get_or_create_default_prefix` is idempotent: for any
architecture, when the prefix path already exists on disk the call
performs no filesystem-creation side effect (no makedirs, no
prefix-creation subprocess, filesystem unchanged), and two sequential
calls with the same architecture return the identical path. -/
theorem claim_c6_idempotent (runner_dir : String) (fs : List String)
    (arch : Option String)
    (hex : get_default_prefix runner_dir arch ∈ fs) :
    get_or_create_default_prefix runner_dir fs arch =
      ( get_default_prefix runner_dir arch, fs, []) ∧
    ( get_or_create_default_prefix runner_dir
        ( get_or_create_default_prefix runner_dir fs arch).2.1 arch).1 =
      ( get_or_create_default_prefix runner_dir fs arch).1 := by
  constructor
  · unfold get_or_create_default_prefix
    simp only []
    rw [get_default_prefix_norm, if_pos hex]
  · rw [get_or_create_fst, get_or_create_fst]

/-- Witness for C6: the prefix directory already exists. -/
theorem claim_c6_witness :
    ( get_default_prefix "rd" none ∈ ["rd/winebattlenet/prefix"]) ∧
    ( get_or_create_default_prefix "rd" ["rd/winebattlenet/prefix"] none =
      ( get_default_prefix "rd" none, ["rd/winebattlenet/prefix"], []) ∧
    ( get_or_create_default_prefix "rd"
        ( get_or_create_default_prefix "rd" ["rd/winebattlenet/prefix"] none).2.1 none).1 =
      ( get_or_create_default_prefix "rd" ["rd/winebattlenet/prefix"] none).1) :=
  ⟨by decide, claim_c6_idempotent "rd" ["rd/winebattlenet/prefix"] none (by decide)⟩

/-! ## Claim C9: is_installed on detection failure -/

/-- Counterexample to claim C9 as stated: on a detection failure (no
executable located), the generic `Runner.is_installed` of runner.py falls
off the end of the function and returns Python `None` — a falsy value,
but not the boolean `False` the claim promises on every runner state. -/
theorem claim_c9_counterexample :
    runner_is_installed none (fun _ => true) = none ∧
    (none : Option Bool) ≠ some false :=
  ⟨rfl, by decide⟩

/-- Claim C9 (amended): detection failures do not raise, but the generic
`Runner.is_installed` reports them as the falsy `None` (its only results
are `True` and `None`, never the boolean `False`), while the vendor
adapter's `winebattlenet.is_installed` does return the actual boolean
`false` on every detection failure (wine layer missing, Battle.net
executable not located, or an empty located path). -/
theorem claim_c9_falsy_not_false :
    (∀ pe : String → Bool, runner_is_installed none pe = none) ∧
    (∀ (exe : String) (pe : String → Bool),
      runner_is_installed (some exe) pe = some true ∨
      runner_is_installed (some exe) pe = none) ∧
    (∀ (rd : String) (bp : Option String) (pe : String → Bool),
      wbn_is_installed rd false bp pe = false) ∧
    (∀ (rd : String) (wi : Bool) (pe : String → Bool),
      wbn_is_installed rd wi none pe = false) := by
  refine ⟨fun _ => rfl, ?_, fun _ _ _ => rfl, ?_⟩
  · intro exe pe
    simp only [runner_is_installed]
    cases hc : (decide (exe ≠ "") && pe exe) <;> simp
  · intro rd wi pe
    cases wi <;> rfl

/-! ## Claim C10: get_default_prefix architecture resolution -/

/-- Claim C10: `get_default_prefix` is a pure function of its architecture
argument that returns the 64-bit prefix path only for exactly `'win64'`;
every other value — `'win32'`, `'auto'`, and the absent/None default —
yields the same 32-bit prefix path, so a configured arch of `'auto'`
silently resolves to the 32-bit prefix. -/
theorem claim_c10_arch_resolution (runner_dir : String) (arch : Option String)
    (h : arch ≠ some "win64") :
    get_default_prefix runner_dir arch = get_default_prefix runner_dir (some "win32") ∧
    get_default_prefix runner_dir (some "auto") =
      get_default_prefix runner_dir (some "win32") ∧
    get_default_prefix runner_dir none = get_default_prefix runner_dir (some "win32") ∧
    get_default_prefix runner_dir (some "win64") ≠
      get_default_prefix runner_dir (some "win32") := by
  refine ⟨?_, ?_, ?_, ?_⟩
  · unfold get_default_prefix archOrDefault default_arch
    cases arch with
    | none => simp
    | some s =>
      have hs : s ≠ "win64" := fun he => h (by rw [he])
      by_cases he : s = "" <;> simp [he, hs]
  · rfl
  · rfl
  · intro hcon
    have e64 : get_default_prefix runner_dir (some "win64") =
        runner_dir ++ "/winebattlenet/" ++ "prefix64" := rfl
    have e32 : get_default_prefix runner_dir (some "win32") =
        runner_dir ++ "/winebattlenet/" ++ "prefix" := rfl
    rw [e64, e32] at hcon
    have hdata := congrArg String.data hcon
    simp only [String.data_append] at hdata
    have h1 := List.append_cancel_left hdata
    exact absurd h1 (by decide)

/-- Witness for C10 at arch `'auto'`. -/
theorem claim_c10_witness :
    ((some "auto" : Option String) ≠ some "win64") ∧
    ( get_default_prefix "rd" (some "auto") = get_default_prefix "rd" (some "win32") ∧
      get_default_prefix "rd" (some "auto") = get_default_prefix "rd" (some "win32") ∧
      get_default_prefix "rd" none = get_default_prefix "rd" (some "win32") ∧
      get_default_prefix "rd" (some "win64") ≠ get_default_prefix "rd" (some "win32")) :=
  ⟨by decide, claim_c10_arch_resolution "rd" (some "auto") (by decide)⟩
